/-
Verification of the convention-linter CI script
(.github/scripts/run-convention-linter.js, current revision).

The script is a Node.js program; we shallowly embed its pure decision
logic in Lean.  JavaScript string primitives used by the script
(String.prototype.includes, endsWith, split, replace, trim) are modelled
as executable functions over the character list of a string.  Effectful
inputs (git diff shell-outs, filesystem reads, HTTP responses,
environment variables) are passed explicitly as function-valued
environments or option/except values, mirroring the success/throw
branches of the source.
-/
import Mathlib

/-! ## JavaScript string primitives, modelled on character lists -/

/-- The first list begins with the second list (JS `startsWith`). -/
def listStartsWith : List Char → List Char → Bool
  | _, [] => true
  | [], _ :: _ => false
  | a :: as, b :: bs => a == b && listStartsWith as bs

/-- `pat` occurs as a contiguous subsequence of the second list
(JS `String.prototype.includes`). -/
def listContainsSub (pat : List Char) : List Char → Bool
  | [] => match pat with | [] => true | _ :: _ => false
  | a :: as => listStartsWith (a :: as) pat || listContainsSub pat as

/-- Characters strictly before the first occurrence of `sep`
(JS `s.split(sep)[0]` for a non-empty separator). -/
def takeUntilSub (sep : List Char) : List Char → List Char
  | [] => []
  | a :: as => if listStartsWith (a :: as) sep then [] else a :: takeUntilSub sep as

/-- Replace the first occurrence of `pat` by `rep`
(JS `String.prototype.replace` with a string pattern). -/
def replaceFirstList (pat rep : List Char) : List Char → List Char
  | [] => []
  | a :: as =>
    if listStartsWith (a :: as) pat then rep ++ List.drop pat.length (a :: as)
    else a :: replaceFirstList pat rep as

/-- Strip whitespace from both ends (JS `String.prototype.trim`). -/
def trimList (l : List Char) : List Char :=
  ((l.dropWhile Char.isWhitespace).reverse.dropWhile Char.isWhitespace).reverse

/-- JS `s.includes(pat)`. -/
def includesStr (s pat : String) : Bool := listContainsSub pat.data s.data

/-- JS `s.endsWith(suffixStr)`. -/
def endsWithStr (s suffixStr : String) : Bool :=
  listStartsWith s.data.reverse suffixStr.data.reverse

/-- JS `s.split(sep)[0]`. -/
def takeUntilStr (s sep : String) : String := ⟨takeUntilSub sep.data s.data⟩

/-- JS `s.replace(pat, rep)` (first occurrence only). -/
def replaceFirstStr (s pat rep : String) : String :=
  ⟨replaceFirstList pat.data rep.data s.data⟩

/-- JS `s.trim()`. -/
def trimStr (s : String) : String := ⟨trimList s.data⟩

/-- JS truthiness of a nullable string: `null` and `""` are falsy. -/
def truthyStr : Option String → Bool
  | none => false
  | some s => !(s == "")

/-! ## File classification (`isModelFile`, `isMigrationFile`) -/

/-- Source: `isModelFile` — `file.endsWith('.model.ts') || file.endsWith('.model.js')`. -/
def isModelFile (file : String) : Bool :=
  endsWithStr file ".model.ts" || endsWithStr file ".model.js"

/-- Source: `isMigrationFile` —
`file.includes('/migrations/') && (file.endsWith('.ts') || file.endsWith('.js'))`. -/
def isMigrationFile (file : String) : Bool :=
  includesStr file "/migrations/" && (endsWithStr file ".ts" || endsWithStr file ".js")

/-- The category a file ends up with, following the if/else-if cascade of
`generateDiffContent` (model test first, then migration, else other). -/
inductive FType where
  | model
  | migration
  | other
deriving DecidableEq

/-- The classification cascade of `generateDiffContent`. -/
def classifyFile (file : String) : FType :=
  if isModelFile file then FType.model
  else if isMigrationFile file then FType.migration
  else FType.other

/-! ## `generateDiffContent` -/

/-- One entry of `diffData.diffs` (source object literal `fileInfo`). -/
structure FileInfo where
  path : String
  diff : String
  fullContent : Option String
  type : FType
deriving DecidableEq

/-- Source object `diffData`: the bundle returned by `generateDiffContent`. -/
structure DiffData where
  diffs : List FileInfo
  modelFiles : List String
  migrationFiles : List String
  otherFiles : List String
deriving DecidableEq

/-- The initial `diffData` object of `generateDiffContent`. -/
def emptyDiffData : DiffData :=
  { diffs := [], modelFiles := [], migrationFiles := [], otherFiles := [] }

/-- Effectful inputs of `generateDiffContent`:
`gitDiff baseRef file` is `some` of the output of
`execSync('git diff origin/<baseRef> HEAD -- "<file>"')`, or `none` when the
shell-out throws; `fileContent file` is the result of `getFileContent`
(`none` when the file is missing or unreadable). -/
structure GitEnv where
  gitDiff : String → String → Option String
  fileContent : String → Option String

/-- The body of the `for (const file of changedFiles)` loop of
`generateDiffContent`: one file processed against the accumulated bundle. -/
def processFile (env : GitEnv) (baseRef : String) (diffData : DiffData) (file : String) :
    DiffData :=
  match env.gitDiff baseRef file with
  | some fileDiff =>
    if isModelFile file then
      let fullContent := env.fileContent file
      { diffData with
        modelFiles := diffData.modelFiles ++ [file],
        diffs := diffData.diffs ++
          [{ path := file, diff := fileDiff,
             fullContent := if truthyStr fullContent then fullContent else none,
             type := FType.model }] }
    else if isMigrationFile file then
      let fullContent := env.fileContent file
      { diffData with
        migrationFiles := diffData.migrationFiles ++ [file],
        diffs := diffData.diffs ++
          [{ path := file, diff := fileDiff,
             fullContent := if truthyStr fullContent then fullContent else none,
             type := FType.migration }] }
    else
      { diffData with
        otherFiles := diffData.otherFiles ++ [file],
        diffs := diffData.diffs ++
          [{ path := file, diff := fileDiff, fullContent := none, type := FType.other }] }
  | none =>
    -- catch branch: warn and, for model/migration files with readable
    -- (truthy) content, push an entry with an empty diff; otherwise skip.
    if isModelFile file || isMigrationFile file then
      let fullContent := env.fileContent file
      if truthyStr fullContent then
        { diffData with
          diffs := diffData.diffs ++
            [{ path := file, diff := "", fullContent := fullContent,
               type := if isModelFile file then FType.model else FType.migration }] }
      else diffData
    else diffData

/-- Source: `generateDiffContent(changedFiles, baseRef)`. -/
def generateDiffContent (env : GitEnv) (changedFiles : List String) (baseRef : String) :
    DiffData :=
  List.foldl (processFile env baseRef) emptyDiffData changedFiles

/-! ## `formatDiffDataForAI` and `preparePrompts` -/

/-- The string stored in the JS `type` field of a file entry. -/
def FType.str : FType → String
  | FType.model => "model"
  | FType.migration => "migration"
  | FType.other => "other"

/-- One `### File:` section emitted by the loop of `formatDiffDataForAI`. -/
def formatFileSection (fileInfo : FileInfo) : String :=
  "### File: " ++ fileInfo.path ++ " (Type: " ++ fileInfo.type.str ++ ")\n\n" ++
  (if fileInfo.diff == "" then ""
   else "#### Git Diff:\n```diff\n" ++ fileInfo.diff ++ "\n```\n\n") ++
  (match fileInfo.fullContent with
   | none => ""
   | some c =>
     if c == "" then ""
     else "#### Complete File Content (for context):\n```typescript\n" ++ c ++ "\n```\n\n")

/-- The concatenation of the per-file sections of `formatDiffDataForAI`. -/
def formatFileSections : List FileInfo → String
  | [] => ""
  | fileInfo :: rest => formatFileSection fileInfo ++ formatFileSections rest

/-- Source: `formatDiffDataForAI(diffData)`. -/
def formatDiffDataForAI (diffData : DiffData) : String :=
  let modelNames := String.intercalate ", " diffData.modelFiles
  let migrationNames := String.intercalate ", " diffData.migrationFiles
  "## Change Summary\n" ++
  ("- Model files changed: " ++ toString diffData.modelFiles.length ++ " (" ++
    (if modelNames == "" then "none" else modelNames) ++ ")\n") ++
  ("- Migration files changed: " ++ toString diffData.migrationFiles.length ++ " (" ++
    (if migrationNames == "" then "none" else migrationNames) ++ ")\n") ++
  ("- Other files changed: " ++ toString diffData.otherFiles.length ++ "\n\n") ++
  "## Detailed Changes\n\n" ++
  formatFileSections diffData.diffs

/-- The prompt-template files visible to `preparePrompts`:
`none` models a missing file, `some` its contents.  The three fields are
`convention-linter-system.txt`, `convention-linter-user.txt` and the legacy
`convention-linter-prompt.txt`. -/
structure PromptFS where
  systemTpl : Option String
  userTpl : Option String
  legacyTpl : Option String

/-- The error thrown by `preparePrompts` when no template file exists
("No prompt templates found..."). -/
inductive PromptError where
  | noTemplates
deriving DecidableEq

/-- Source: `preparePrompts(diffData)`.  The modern pair is used when both
of its files exist; otherwise the legacy combined template is split at
`__DIFFS_PLACEHOLDER__`, keeping the part before the marker as the system
prompt; with no template at all, the configuration error is thrown. -/
def preparePrompts (fsx : PromptFS) (diffData : DiffData) :
    Except PromptError (String × String) :=
  match fsx.systemTpl, fsx.userTpl with
  | some systemPrompt, some userPromptTemplate =>
    Except.ok (systemPrompt,
      replaceFirstStr userPromptTemplate "__DIFF_DATA__" (formatDiffDataForAI diffData))
  | _, _ =>
    match fsx.legacyTpl with
    | none => Except.error PromptError.noTemplates
    | some promptTemplate =>
      Except.ok (takeUntilStr promptTemplate "__DIFFS_PLACEHOLDER__",
        "Please analyze the following code changes:\n\n" ++ formatDiffDataForAI diffData)

/-! ## `callGitHubModels`, comment posting and the result handling of `main` -/

/-- The observable part of an HTTP response (`fetch` result). -/
structure Http where
  ok : Bool
  status : Nat
  body : String
deriving DecidableEq

/-- Errors thrown by `callGitHubModels`: a non-success HTTP status with
its status code and response body, or a missing/empty reply field. -/
inductive ApiError where
  | httpError (status : Nat) (body : String)
  | invalidResponse
deriving DecidableEq

/-- Source: `callGitHubModels`.  `content` is
`responseData.choices?.[0]?.message?.content` (`none` when the chain is
absent); the source trims it and throws on a falsy result. -/
def callGitHubModels (response : Http) (content : Option String) :
    Except ApiError String :=
  if !response.ok then Except.error (ApiError.httpError response.status response.body)
  else
    match content with
    | none => Except.error ApiError.invalidResponse
    | some c =>
      if trimStr c == "" then Except.error ApiError.invalidResponse
      else Except.ok (trimStr c)

/-- The Markdown body built by `postPrComment` before its POST. -/
def buildFailComment (providerName : String) (diffData : DiffData)
    (linterOutput : String) : String :=
  "## 🚨 Convention Linter Analysis\n\n" ++
  ("**AI Provider:** " ++ providerName ++ "\n") ++
  ("**Files Analyzed:** " ++ toString diffData.diffs.length ++ "\n") ++
  ("- Model files: " ++ toString diffData.modelFiles.length ++ "\n") ++
  ("- Migration files: " ++ toString diffData.migrationFiles.length ++ "\n\n") ++
  "### ❌ Issues Found\n\n" ++
  ("```\n" ++ linterOutput ++ "\n```\n\n")

/-- What `postPrComment` logs about its POST: the source catches a thrown
fetch and logs a non-ok status; it never rethrows. -/
inductive PostLog where
  | posted
  | failedStatus (status : Nat) (body : String)
  | errored (msg : String)
deriving DecidableEq

/-- The logging outcome of `postPrComment` for a given comment-POST
result (`Except.error` models a thrown `fetch`). -/
def postCommentResult (fetchResult : Except String Http) : PostLog :=
  match fetchResult with
  | Except.error msg => PostLog.errored msg
  | Except.ok r => if r.ok then PostLog.posted else PostLog.failedStatus r.status r.body

/-- Source: the `process.env.POST_SUCCESS_COMMENTS === 'true'` gate of
`postSuccessComment` (`none` models an unset variable). -/
def postSuccessEnabled (postSuccessComments : Option String) : Bool :=
  postSuccessComments == some "true"

/-- The observable outcome of step 7 of `main`: the process exit code,
the failure-comment body POSTed (if any), what the failure POST logged,
and whether a success-comment POST was attempted. -/
structure RunOutcome where
  exitCode : Nat
  failCommentBody : Option String
  failCommentLog : Option PostLog
  successPosted : Bool
deriving DecidableEq

/-- Step 7 of `main`: `if (!responseText.includes('OK'))` post the failure
comment and exit 1, else optionally post a success comment and finish
with exit code 0. -/
def handleResult (providerName : String) (diffData : DiffData)
    (postSuccessComments : Option String) (commentFetch : Except String Http)
    (responseText : String) : RunOutcome :=
  if !(includesStr responseText "OK") then
    { exitCode := 1,
      failCommentBody := some (buildFailComment providerName diffData responseText),
      failCommentLog := some (postCommentResult commentFetch),
      successPosted := false }
  else
    { exitCode := 0, failCommentBody := none, failCommentLog := none,
      successPosted := postSuccessEnabled postSuccessComments }

/-- Steps 6–7 of `main` together with its `catch`: a throwing review call
is caught, logged and turned into `process.exit(1)` with no comment
attempted; a successful review text goes to the result handling. -/
def runMain (providerName : String) (diffData : DiffData)
    (postSuccessComments : Option String) (commentFetch : Except String Http)
    (reviewResult : Except ApiError String) : RunOutcome :=
  match reviewResult with
  | Except.error _ =>
    { exitCode := 1, failCommentBody := none, failCommentLog := none,
      successPosted := false }
  | Except.ok responseText =>
    handleResult providerName diffData postSuccessComments commentFetch responseText

/-! ## Lemmas about the string primitives -/

theorem listStartsWith_iff (l p : List Char) :
    listStartsWith l p = true ↔ ∃ r, l = p ++ r := by
  induction p generalizing l with
  | nil => simp [listStartsWith]
  | cons b bs ih =>
    cases l with
    | nil => simp [listStartsWith]
    | cons a as =>
      simp only [listStartsWith, Bool.and_eq_true, beq_iff_eq, ih, List.cons_append,
        List.cons.injEq]
      constructor
      · rintro ⟨rfl, r, rfl⟩; exact ⟨r, rfl, rfl⟩
      · rintro ⟨r, rfl, rfl⟩; exact ⟨rfl, r, rfl⟩

theorem listContainsSub_iff (p l : List Char) :
    listContainsSub p l = true ↔ ∃ x y, l = x ++ p ++ y := by
  induction l with
  | nil =>
    cases p with
    | nil => exact ⟨fun _ => ⟨[], [], rfl⟩, fun _ => rfl⟩
    | cons b bs => simp [listContainsSub]
  | cons a as ih =>
    simp only [listContainsSub, Bool.or_eq_true, listStartsWith_iff, ih]
    constructor
    · rintro (⟨r, hr⟩ | ⟨x, y, hxy⟩)
      · exact ⟨[], r, by simpa using hr⟩
      · exact ⟨a :: x, y, by simp [hxy]⟩
    · rintro ⟨x, y, hxy⟩
      cases x with
      | nil => exact Or.inl ⟨y, by simpa using hxy⟩
      | cons c cs =>
        simp only [List.cons_append, List.cons.injEq, List.append_assoc] at hxy
        exact Or.inr ⟨cs, y, by simp [hxy.2]⟩

theorem includesStr_iff (s pat : String) :
    includesStr s pat = true ↔ ∃ x y : String, s = x ++ pat ++ y := by
  rw [includesStr, listContainsSub_iff]
  constructor
  · rintro ⟨x, y, hxy⟩
    refine ⟨⟨x⟩, ⟨y⟩, String.ext ?_⟩
    simpa [String.data_append] using hxy
  · rintro ⟨x, y, rfl⟩
    exact ⟨x.data, y.data, by simp [String.data_append]⟩

theorem endsWithStr_iff (s pat : String) :
    endsWithStr s pat = true ↔ ∃ x : String, s = x ++ pat := by
  rw [endsWithStr, listStartsWith_iff]
  constructor
  · rintro ⟨r, hr⟩
    refine ⟨⟨r.reverse⟩, String.ext ?_⟩
    have h2 := congrArg List.reverse hr
    simp only [List.reverse_reverse, List.reverse_append] at h2
    simpa [String.data_append] using h2
  · rintro ⟨x, rfl⟩
    exact ⟨x.data.reverse, by simp [String.data_append]⟩

theorem includes_append (x pat y : String) : includesStr (x ++ pat ++ y) pat = true :=
  (includesStr_iff _ _).2 ⟨x, y, rfl⟩

theorem listStartsWith_append (p r : List Char) : listStartsWith (p ++ r) p = true :=
  (listStartsWith_iff _ _).2 ⟨r, rfl⟩

theorem takeUntilSub_spec (sep : List Char) (l : List Char)
    (h : listContainsSub sep l = true) :
    ∃ y, l = takeUntilSub sep l ++ sep ++ y := by
  induction l with
  | nil =>
    cases sep with
    | nil => exact ⟨[], rfl⟩
    | cons b bs => simp [listContainsSub] at h
  | cons a as ih =>
    by_cases hs : listStartsWith (a :: as) sep = true
    · obtain ⟨r, hr⟩ := (listStartsWith_iff _ _).1 hs
      exact ⟨r, by simp [takeUntilSub, hs, hr, listStartsWith_append]⟩
    · have h2 : listContainsSub sep as = true := by
        simp only [listContainsSub, Bool.or_eq_true] at h
        exact h.resolve_left hs
      obtain ⟨y, hy⟩ := ih h2
      refine ⟨y, ?_⟩
      rw [takeUntilSub, if_neg hs]
      simpa using congrArg (a :: ·) hy

theorem takeUntilSub_not_contains (sep : List Char) (l : List Char)
    (h : listContainsSub sep l = false) :
    takeUntilSub sep l = l := by
  induction l with
  | nil => rfl
  | cons a as ih =>
    simp only [listContainsSub, Bool.or_eq_false_iff] at h
    rw [takeUntilSub, if_neg (by simp [h.1])]
    rw [ih h.2]

/-! ## Characterizing `generateDiffContent` -/

/-- The `diffData.diffs` entries that processing one file contributes. -/
def entriesFor (env : GitEnv) (baseRef : String) (file : String) : List FileInfo :=
  match env.gitDiff baseRef file with
  | some fileDiff =>
    if isModelFile file then
      [{ path := file, diff := fileDiff,
         fullContent := if truthyStr (env.fileContent file) then env.fileContent file
                        else none,
         type := FType.model }]
    else if isMigrationFile file then
      [{ path := file, diff := fileDiff,
         fullContent := if truthyStr (env.fileContent file) then env.fileContent file
                        else none,
         type := FType.migration }]
    else
      [{ path := file, diff := fileDiff, fullContent := none, type := FType.other }]
  | none =>
    if (isModelFile file || isMigrationFile file) && truthyStr (env.fileContent file) then
      [{ path := file, diff := "", fullContent := env.fileContent file,
         type := if isModelFile file then FType.model else FType.migration }]
    else []

/-- The `modelFiles` paths that processing one file contributes. -/
def modelAdds (env : GitEnv) (baseRef file : String) : List String :=
  if (env.gitDiff baseRef file).isSome && isModelFile file then [file] else []

/-- The `migrationFiles` paths that processing one file contributes. -/
def migrationAdds (env : GitEnv) (baseRef file : String) : List String :=
  if (env.gitDiff baseRef file).isSome && !isModelFile file && isMigrationFile file
  then [file] else []

/-- The `otherFiles` paths that processing one file contributes. -/
def otherAdds (env : GitEnv) (baseRef file : String) : List String :=
  if (env.gitDiff baseRef file).isSome && !isModelFile file && !isMigrationFile file
  then [file] else []

/-- Concatenation of per-file contributions over the input list. -/
def collect {α : Type} (f : String → List α) : List String → List α
  | [] => []
  | g :: gs => f g ++ collect f gs

theorem mem_collect {α : Type} {f : String → List α} {files : List String} {x : α} :
    x ∈ collect f files ↔ ∃ g, g ∈ files ∧ x ∈ f g := by
  induction files with
  | nil => simp [collect]
  | cons g gs ih =>
    simp only [collect, List.mem_append, ih, List.mem_cons]
    constructor
    · rintro (h | ⟨g2, hg2, hx⟩)
      · exact ⟨g, Or.inl rfl, h⟩
      · exact ⟨g2, Or.inr hg2, hx⟩
    · rintro ⟨g2, (rfl | hg2), hx⟩
      · exact Or.inl hx
      · exact Or.inr ⟨g2, hg2, hx⟩

theorem processFile_eq (env : GitEnv) (baseRef : String) (acc : DiffData) (file : String) :
    processFile env baseRef acc file =
      { diffs := acc.diffs ++ entriesFor env baseRef file,
        modelFiles := acc.modelFiles ++ modelAdds env baseRef file,
        migrationFiles := acc.migrationFiles ++ migrationAdds env baseRef file,
        otherFiles := acc.otherFiles ++ otherAdds env baseRef file } := by
  obtain ⟨ds, ms, mgs, os⟩ := acc
  cases hd : env.gitDiff baseRef file with
  | some d =>
    by_cases hm : isModelFile file = true
    · simp [processFile, entriesFor, modelAdds, migrationAdds, otherAdds, hd, hm]
    · by_cases hg : isMigrationFile file = true
      · simp [processFile, entriesFor, modelAdds, migrationAdds, otherAdds, hd, hm, hg]
      · simp [processFile, entriesFor, modelAdds, migrationAdds, otherAdds, hd, hm, hg]
  | none =>
    by_cases hm : isModelFile file = true
    · by_cases ht : truthyStr (env.fileContent file) = true
      · simp [processFile, entriesFor, modelAdds, migrationAdds, otherAdds, hd, hm, ht]
      · simp [processFile, entriesFor, modelAdds, migrationAdds, otherAdds, hd, hm, ht]
    · by_cases hg : isMigrationFile file = true
      · by_cases ht : truthyStr (env.fileContent file) = true
        · simp [processFile, entriesFor, modelAdds, migrationAdds, otherAdds, hd, hm, hg, ht]
        · simp [processFile, entriesFor, modelAdds, migrationAdds, otherAdds, hd, hm, hg, ht]
      · simp [processFile, entriesFor, modelAdds, migrationAdds, otherAdds, hd, hm, hg]

theorem foldl_processFile (env : GitEnv) (baseRef : String) (files : List String)
    (acc : DiffData) :
    List.foldl (processFile env baseRef) acc files =
      { diffs := acc.diffs ++ collect (entriesFor env baseRef) files,
        modelFiles := acc.modelFiles ++ collect (modelAdds env baseRef) files,
        migrationFiles := acc.migrationFiles ++ collect (migrationAdds env baseRef) files,
        otherFiles := acc.otherFiles ++ collect (otherAdds env baseRef) files } := by
  induction files generalizing acc with
  | nil =>
    obtain ⟨ds, ms, mgs, os⟩ := acc
    simp [collect]
  | cons g gs ih =>
    rw [List.foldl_cons, processFile_eq, ih]
    simp [collect, List.append_assoc]

theorem generateDiffContent_eq (env : GitEnv) (files : List String) (baseRef : String) :
    generateDiffContent env files baseRef =
      { diffs := collect (entriesFor env baseRef) files,
        modelFiles := collect (modelAdds env baseRef) files,
        migrationFiles := collect (migrationAdds env baseRef) files,
        otherFiles := collect (otherAdds env baseRef) files } := by
  rw [generateDiffContent, foldl_processFile]
  simp [emptyDiffData]

theorem mem_modelAdds {env : GitEnv} {baseRef g p : String} :
    p ∈ modelAdds env baseRef g ↔
      (env.gitDiff baseRef g).isSome = true ∧ isModelFile g = true ∧ p = g := by
  unfold modelAdds
  split_ifs with h
  · rw [Bool.and_eq_true] at h
    simp [h.1, h.2]
  · simp only [List.not_mem_nil, false_iff]
    rintro ⟨h1, h2, rfl⟩
    exact h (by rw [Bool.and_eq_true]; exact ⟨h1, h2⟩)

theorem mem_migrationAdds {env : GitEnv} {baseRef g p : String} :
    p ∈ migrationAdds env baseRef g ↔
      (env.gitDiff baseRef g).isSome = true ∧ isModelFile g = false ∧
        isMigrationFile g = true ∧ p = g := by
  unfold migrationAdds
  split_ifs with h
  · simp only [Bool.and_eq_true, Bool.not_eq_true'] at h
    simp [h.1.1, h.1.2, h.2]
  · simp only [Bool.and_eq_true, Bool.not_eq_true'] at h
    simp only [List.not_mem_nil, false_iff]
    rintro ⟨h1, h2, h3, rfl⟩
    exact h ⟨⟨h1, h2⟩, h3⟩

theorem mem_otherAdds {env : GitEnv} {baseRef g p : String} :
    p ∈ otherAdds env baseRef g ↔
      (env.gitDiff baseRef g).isSome = true ∧ isModelFile g = false ∧
        isMigrationFile g = false ∧ p = g := by
  unfold otherAdds
  split_ifs with h
  · simp only [Bool.and_eq_true, Bool.not_eq_true'] at h
    simp [h.1.1, h.1.2, h.2]
  · simp only [Bool.and_eq_true, Bool.not_eq_true'] at h
    simp only [List.not_mem_nil, false_iff]
    rintro ⟨h1, h2, h3, rfl⟩
    exact h ⟨⟨h1, h2⟩, h3⟩

theorem entriesFor_facts {env : GitEnv} {baseRef file : String} {e : FileInfo}
    (he : e ∈ entriesFor env baseRef file) :
    e.path = file ∧
    (e.type = FType.other → e.fullContent = none) ∧
    (isModelFile file = true → e.type = FType.model) ∧
    (env.gitDiff baseRef file = none →
      e.diff = "" ∧ e.fullContent = env.fileContent file ∧
      ((isModelFile file || isMigrationFile file) && truthyStr (env.fileContent file))
        = true) := by
  unfold entriesFor at he
  split at he
  next d hd =>
    by_cases hm : isModelFile file = true
    · rw [if_pos hm, List.mem_singleton] at he
      subst he
      refine ⟨rfl, by simp, fun _ => rfl, fun h4 => ?_⟩
      rw [hd] at h4
      exact Option.noConfusion h4
    · rw [if_neg hm] at he
      by_cases hg : isMigrationFile file = true
      · rw [if_pos hg, List.mem_singleton] at he
        subst he
        refine ⟨rfl, by simp, fun h3 => absurd h3 hm, fun h4 => ?_⟩
        rw [hd] at h4
        exact Option.noConfusion h4
      · rw [if_neg hg, List.mem_singleton] at he
        subst he
        refine ⟨rfl, fun _ => rfl, fun h3 => absurd h3 hm, fun h4 => ?_⟩
        rw [hd] at h4
        exact Option.noConfusion h4
  next hd =>
    by_cases hc :
        ((isModelFile file || isMigrationFile file) && truthyStr (env.fileContent file))
          = true
    · rw [if_pos hc, List.mem_singleton] at he
      subst he
      refine ⟨rfl, ?_, fun h3 => by simp [h3], fun _ => ⟨rfl, rfl, hc⟩⟩
      by_cases hm : isModelFile file = true
      · simp [hm]
      · simp [hm]
    · rw [if_neg hc] at he
      exact absurd he (List.not_mem_nil e)

/-! ## Claim theorems -/

/-- The path `p` lies in exactly one of the three path sets of the bundle,
namely the one matching its category. -/
def placedExactlyOnce (dd : DiffData) (p : String) : Prop :=
  (classifyFile p = FType.model ∧ p ∈ dd.modelFiles ∧
    p ∉ dd.migrationFiles ∧ p ∉ dd.otherFiles) ∨
  (classifyFile p = FType.migration ∧ p ∉ dd.modelFiles ∧
    p ∈ dd.migrationFiles ∧ p ∉ dd.otherFiles) ∨
  (classifyFile p = FType.other ∧ p ∉ dd.modelFiles ∧
    p ∉ dd.migrationFiles ∧ p ∈ dd.otherFiles)

/-- Environment in which every `git diff` shell-out throws and no file is
readable (e.g. every changed file was deleted). -/
def envFail : GitEnv :=
  { gitDiff := fun _ _ => none, fileContent := fun _ => none }

/-- Environment in which every `git diff` succeeds and every file is
readable. -/
def envOk : GitEnv :=
  { gitDiff := fun _ _ => some "@@ -1 +1 @@", fileContent := fun _ => some "contents" }

/-- Environment in which every `git diff` shell-out throws but model files
are still readable. -/
def envDel : GitEnv :=
  { gitDiff := fun _ _ => none,
    fileContent := fun f => if isModelFile f then some "model body" else none }

/-- A concrete changed-file list exercising all three categories. -/
def linterFiles0 : List String :=
  ["src/models/agent.model.ts", "src/migrations/20240101-init.js", "README.md"]

/-- C1 (amended): provided every input path's diff retrieval succeeds,
the bundle produced by `generateDiffContent` places each input path in
exactly one of the three path sets `modelFiles`, `migrationFiles`,
`otherFiles` — the one matching its category — and every path occurring
in one of the three sets is an input path, so the union of the three
sets equals the set of input paths. -/
theorem bundle_partition (env : GitEnv) (baseRef : String) (files : List String)
    (h : ∀ f ∈ files, (env.gitDiff baseRef f).isSome = true) :
    (∀ p ∈ files, placedExactlyOnce (generateDiffContent env files baseRef) p) ∧
    (∀ p, (p ∈ (generateDiffContent env files baseRef).modelFiles ∨
           p ∈ (generateDiffContent env files baseRef).migrationFiles ∨
           p ∈ (generateDiffContent env files baseRef).otherFiles) → p ∈ files) := by
  rw [generateDiffContent_eq]
  constructor
  · intro p hp
    have hs := h p hp
    unfold placedExactlyOnce
    by_cases hm : isModelFile p = true
    · left
      refine ⟨by simp [classifyFile, hm], mem_collect.2 ⟨p, hp, mem_modelAdds.2 ⟨hs, hm, rfl⟩⟩,
        ?_, ?_⟩
      · intro hc
        obtain ⟨g, _, hmem⟩ := mem_collect.1 hc
        obtain ⟨_, hg2, _, rfl⟩ := mem_migrationAdds.1 hmem
        rw [hm] at hg2
        exact Bool.noConfusion hg2
      · intro hc
        obtain ⟨g, _, hmem⟩ := mem_collect.1 hc
        obtain ⟨_, hg2, _, rfl⟩ := mem_otherAdds.1 hmem
        rw [hm] at hg2
        exact Bool.noConfusion hg2
    · have hm2 : isModelFile p = false := by
        cases hmm : isModelFile p
        · rfl
        · exact absurd hmm hm
      by_cases hg : isMigrationFile p = true
      · right; left
        refine ⟨by simp [classifyFile, hm2, hg], ?_,
          mem_collect.2 ⟨p, hp, mem_migrationAdds.2 ⟨hs, hm2, hg, rfl⟩⟩, ?_⟩
        · intro hc
          obtain ⟨g, _, hmem⟩ := mem_collect.1 hc
          obtain ⟨_, hg2, rfl⟩ := mem_modelAdds.1 hmem
          rw [hm2] at hg2
          exact Bool.noConfusion hg2
        · intro hc
          obtain ⟨g, _, hmem⟩ := mem_collect.1 hc
          obtain ⟨_, _, hg3, rfl⟩ := mem_otherAdds.1 hmem
          rw [hg] at hg3
          exact Bool.noConfusion hg3
      · have hg2 : isMigrationFile p = false := by
          cases hgg : isMigrationFile p
          · rfl
          · exact absurd hgg hg
        right; right
        refine ⟨by simp [classifyFile, hm2, hg2], ?_, ?_,
          mem_collect.2 ⟨p, hp, mem_otherAdds.2 ⟨hs, hm2, hg2, rfl⟩⟩⟩
        · intro hc
          obtain ⟨g, _, hmem⟩ := mem_collect.1 hc
          obtain ⟨_, hg3, rfl⟩ := mem_modelAdds.1 hmem
          rw [hm2] at hg3
          exact Bool.noConfusion hg3
        · intro hc
          obtain ⟨g, _, hmem⟩ := mem_collect.1 hc
          obtain ⟨_, _, hg3, rfl⟩ := mem_migrationAdds.1 hmem
          rw [hg2] at hg3
          exact Bool.noConfusion hg3
  · intro p hp
    rcases hp with hp | hp | hp
    · obtain ⟨g, hg, hmem⟩ := mem_collect.1 hp
      obtain ⟨_, _, rfl⟩ := mem_modelAdds.1 hmem
      exact hg
    · obtain ⟨g, hg, hmem⟩ := mem_collect.1 hp
      obtain ⟨_, _, _, rfl⟩ := mem_migrationAdds.1 hmem
      exact hg
    · obtain ⟨g, hg, hmem⟩ := mem_collect.1 hp
      obtain ⟨_, _, _, rfl⟩ := mem_otherAdds.1 hmem
      exact hg

/-- C1 counterexample: with a base ref and changed-path list for which the
diff shell-out throws (a deleted file), the input path `README.md` lands in
none of the three path sets, so the union of the sets is not the input set
and the claim as stated fails. -/
theorem bundle_partition_cex :
    "README.md" ∈ ["README.md"] ∧
    (generateDiffContent envFail ["README.md"] "main").modelFiles = [] ∧
    (generateDiffContent envFail ["README.md"] "main").migrationFiles = [] ∧
    (generateDiffContent envFail ["README.md"] "main").otherFiles = [] := by
  decide

/-- C1 witness: the amended theorem applied to a run in which every diff
retrieval succeeds, over a list with one file of each category. -/
theorem bundle_partition_witness :
    (∀ f ∈ linterFiles0, (envOk.gitDiff "main" f).isSome = true) ∧
    ((∀ p ∈ linterFiles0, placedExactlyOnce (generateDiffContent envOk linterFiles0 "main") p) ∧
     (∀ p, (p ∈ (generateDiffContent envOk linterFiles0 "main").modelFiles ∨
            p ∈ (generateDiffContent envOk linterFiles0 "main").migrationFiles ∨
            p ∈ (generateDiffContent envOk linterFiles0 "main").otherFiles) →
        p ∈ linterFiles0)) :=
  ⟨by decide, bundle_partition envOk "main" linterFiles0 (by decide)⟩

/-- C2 (amended): when the diff shell-out for an input path throws, the
run still produces a bundle (the loop catches the error and continues);
if that path is a model or migration file whose full content is readable
and non-empty, the bundle contains an entry for it with an empty diff
text and the full content; otherwise the failing path gets no entry in
the bundle at all. -/
theorem diff_failure_entry (env : GitEnv) (baseRef : String) (files : List String)
    (f : String) (hf : f ∈ files) (hd : env.gitDiff baseRef f = none) :
    (((isModelFile f || isMigrationFile f) && truthyStr (env.fileContent f)) = true →
      ∃ e, e ∈ (generateDiffContent env files baseRef).diffs ∧
        e.path = f ∧ e.diff = "" ∧ e.fullContent = env.fileContent f) ∧
    (((isModelFile f || isMigrationFile f) && truthyStr (env.fileContent f)) = false →
      ∀ e ∈ (generateDiffContent env files baseRef).diffs, e.path ≠ f) := by
  rw [generateDiffContent_eq]
  constructor
  · intro hc
    refine ⟨{ path := f, diff := "", fullContent := env.fileContent f,
              type := if isModelFile f then FType.model else FType.migration },
            mem_collect.2 ⟨f, hf, ?_⟩, rfl, rfl, rfl⟩
    unfold entriesFor
    rw [hd, if_pos hc, List.mem_singleton]
  · intro hc e he hpe
    obtain ⟨g, _, hmem⟩ := mem_collect.1 he
    have hfacts := entriesFor_facts hmem
    have hgf : g = f := by rw [← hfacts.1, hpe]
    subst hgf
    have h4 := hfacts.2.2.2 hd
    rw [hc] at h4
    exact Bool.noConfusion h4.2.2

/-- C2 counterexample: a path (`README.md`, category Other) whose diff
retrieval fails yields no `diffs` entry at all, contradicting the claim
that the bundle contains an entry with empty diff text for that path. -/
theorem diff_failure_entry_cex :
    envFail.gitDiff "main" "README.md" = none ∧
    "README.md" ∈ ["README.md"] ∧
    (generateDiffContent envFail ["README.md"] "main").diffs = [] := by
  decide

/-- C2 witness: the amended theorem applied to a deleted model file whose
content is still readable. -/
theorem diff_failure_entry_witness :
    ("a.model.ts" ∈ ["a.model.ts"] ∧ envDel.gitDiff "main" "a.model.ts" = none) ∧
    ((((isModelFile "a.model.ts" || isMigrationFile "a.model.ts") &&
          truthyStr (envDel.fileContent "a.model.ts")) = true →
        ∃ e, e ∈ (generateDiffContent envDel ["a.model.ts"] "main").diffs ∧
          e.path = "a.model.ts" ∧ e.diff = "" ∧
          e.fullContent = envDel.fileContent "a.model.ts") ∧
     (((isModelFile "a.model.ts" || isMigrationFile "a.model.ts") &&
          truthyStr (envDel.fileContent "a.model.ts")) = false →
        ∀ e ∈ (generateDiffContent envDel ["a.model.ts"] "main").diffs,
          e.path ≠ "a.model.ts")) :=
  ⟨⟨by decide, rfl⟩,
   diff_failure_entry envDel "main" ["a.model.ts"] "a.model.ts" (by decide) rfl⟩

/-- C9: in every bundle produced by `generateDiffContent`, an entry's
`fullContent` is non-null only when the entry's category is model or
migration; entries of category other always carry `fullContent = none`. -/
theorem fullContent_only_special (env : GitEnv) (files : List String) (baseRef : String) :
    ∀ e ∈ (generateDiffContent env files baseRef).diffs,
      (e.fullContent ≠ none → e.type = FType.model ∨ e.type = FType.migration) ∧
      (e.type = FType.other → e.fullContent = none) := by
  rw [generateDiffContent_eq]
  intro e he
  obtain ⟨g, _, hmem⟩ := mem_collect.1 he
  have hfacts := entriesFor_facts hmem
  refine ⟨?_, hfacts.2.1⟩
  intro hne
  cases ht : e.type with
  | model => exact Or.inl rfl
  | migration => exact Or.inr rfl
  | other => exact absurd (hfacts.2.1 ht) hne

/-- C9 witness: the theorem applied to a concrete bundle containing an
entry of category other, whose `fullContent` is indeed null. -/
theorem fullContent_only_special_witness :
    ((⟨"README.md", "@@ -1 +1 @@", none, FType.other⟩ : FileInfo) ∈
      (generateDiffContent envOk ["README.md"] "main").diffs) ∧
    (((⟨"README.md", "@@ -1 +1 @@", none, FType.other⟩ : FileInfo).fullContent ≠ none →
        (⟨"README.md", "@@ -1 +1 @@", none, FType.other⟩ : FileInfo).type = FType.model ∨
        (⟨"README.md", "@@ -1 +1 @@", none, FType.other⟩ : FileInfo).type = FType.migration) ∧
     ((⟨"README.md", "@@ -1 +1 @@", none, FType.other⟩ : FileInfo).type = FType.other →
        (⟨"README.md", "@@ -1 +1 @@", none, FType.other⟩ : FileInfo).fullContent = none)) :=
  ⟨by decide, fullContent_only_special envOk ["README.md"] "main" _ (by decide)⟩

/-- C10: a path satisfying both category predicates (for example
`src/migrations/foo.model.ts`) is classified model, not migration: the
model check runs first, so such a path never reaches `migrationFiles`
and its bundle entries always have category model. -/
theorem model_beats_migration (p : String) (h1 : isModelFile p = true)
    (h2 : isMigrationFile p = true) :
    classifyFile p = FType.model ∧
    ∀ env baseRef files,
      p ∉ (generateDiffContent env files baseRef).migrationFiles ∧
      ∀ e ∈ (generateDiffContent env files baseRef).diffs,
        e.path = p → e.type = FType.model := by
  refine ⟨by simp [classifyFile, h1], ?_⟩
  intro env baseRef files
  rw [generateDiffContent_eq]
  constructor
  · intro hc
    obtain ⟨g, _, hmem⟩ := mem_collect.1 hc
    obtain ⟨_, hg2, _, rfl⟩ := mem_migrationAdds.1 hmem
    rw [h1] at hg2
    exact Bool.noConfusion hg2
  · intro e he hpe
    obtain ⟨g, _, hmem⟩ := mem_collect.1 he
    have hfacts := entriesFor_facts hmem
    have hgp : g = p := by rw [← hfacts.1, hpe]
    subst hgp
    exact hfacts.2.2.1 h1

/-- C10 witness: the theorem applied to the doubly-matching path
`src/migrations/foo.model.ts`. -/
theorem model_beats_migration_witness :
    (isModelFile "src/migrations/foo.model.ts" = true ∧
     isMigrationFile "src/migrations/foo.model.ts" = true) ∧
    (classifyFile "src/migrations/foo.model.ts" = FType.model ∧
     ∀ env baseRef files,
       "src/migrations/foo.model.ts" ∉
         (generateDiffContent env files baseRef).migrationFiles ∧
       ∀ e ∈ (generateDiffContent env files baseRef).diffs,
         e.path = "src/migrations/foo.model.ts" → e.type = FType.model) :=
  ⟨⟨by decide, by decide⟩,
   model_beats_migration "src/migrations/foo.model.ts" (by decide) (by decide)⟩

theorem isModelFile_iff (p : String) :
    isModelFile p = true ↔
      ∃ s : String, p = s ++ ".model.ts" ∨ p = s ++ ".model.js" := by
  simp only [isModelFile, Bool.or_eq_true, endsWithStr_iff]
  constructor
  · rintro (⟨s, rfl⟩ | ⟨s, rfl⟩)
    · exact ⟨s, Or.inl rfl⟩
    · exact ⟨s, Or.inr rfl⟩
  · rintro ⟨s, (rfl | rfl)⟩
    · exact Or.inl ⟨s, rfl⟩
    · exact Or.inr ⟨s, rfl⟩

theorem isMigrationFile_iff (p : String) :
    isMigrationFile p = true ↔
      (∃ x y : String, p = x ++ "/migrations/" ++ y) ∧
      (∃ s : String, p = s ++ ".ts" ∨ p = s ++ ".js") := by
  simp only [isMigrationFile, Bool.and_eq_true, Bool.or_eq_true, includesStr_iff,
    endsWithStr_iff]
  constructor
  · rintro ⟨hc, (⟨s, rfl⟩ | ⟨s, rfl⟩)⟩
    · exact ⟨hc, s, Or.inl rfl⟩
    · exact ⟨hc, s, Or.inr rfl⟩
  · rintro ⟨hc, s, (rfl | rfl)⟩
    · exact ⟨hc, Or.inl ⟨s, rfl⟩⟩
    · exact ⟨hc, Or.inr ⟨s, rfl⟩⟩

/-- C4 (amended): classification is a pure function of the path string:
a path ending in `.model.ts` or `.model.js` is classified model; a path
containing a `/migrations/` segment and ending in `.ts` or `.js` is
classified migration provided it is not a model path (the model rule
takes precedence); every remaining path is classified other. -/
theorem classifyFile_spec (p : String) :
    ((∃ s : String, p = s ++ ".model.ts" ∨ p = s ++ ".model.js") →
      classifyFile p = FType.model) ∧
    ((¬∃ s : String, p = s ++ ".model.ts" ∨ p = s ++ ".model.js") →
      (∃ x y : String, p = x ++ "/migrations/" ++ y) →
      (∃ s : String, p = s ++ ".ts" ∨ p = s ++ ".js") →
      classifyFile p = FType.migration) ∧
    ((¬∃ s : String, p = s ++ ".model.ts" ∨ p = s ++ ".model.js") →
      ¬((∃ x y : String, p = x ++ "/migrations/" ++ y) ∧
        (∃ s : String, p = s ++ ".ts" ∨ p = s ++ ".js")) →
      classifyFile p = FType.other) := by
  refine ⟨?_, ?_, ?_⟩
  · intro hm
    simp [classifyFile, (isModelFile_iff p).2 hm]
  · intro hnm hc hs
    have h1 : isModelFile p = false := by
      cases hmm : isModelFile p
      · rfl
      · exact absurd ((isModelFile_iff p).1 hmm) hnm
    have h2 : isMigrationFile p = true := (isMigrationFile_iff p).2 ⟨hc, hs⟩
    simp [classifyFile, h1, h2]
  · intro hnm hng
    have h1 : isModelFile p = false := by
      cases hmm : isModelFile p
      · rfl
      · exact absurd ((isModelFile_iff p).1 hmm) hnm
    have h2 : isMigrationFile p = false := by
      cases hgg : isMigrationFile p
      · rfl
      · exact absurd ((isMigrationFile_iff p).1 hgg) hng
    simp [classifyFile, h1, h2]

/-- C4 counterexample: `src/migrations/foo.model.ts` contains a
`/migrations/` segment and ends in `.ts`, yet its classification is not
migration (the model rule wins), refuting the migration rule of the claim
as stated. -/
theorem classifyFile_cex :
    (∃ x y : String, "src/migrations/foo.model.ts" = x ++ "/migrations/" ++ y) ∧
    (∃ s : String, "src/migrations/foo.model.ts" = s ++ ".ts" ∨
        "src/migrations/foo.model.ts" = s ++ ".js") ∧
    classifyFile "src/migrations/foo.model.ts" ≠ FType.migration :=
  ⟨⟨"src", "foo.model.ts", by decide⟩,
   ⟨"src/migrations/foo.model", Or.inl (by decide)⟩,
   by decide⟩

/-- C4 witness: the amended rules applied to one path of each category. -/
theorem classifyFile_spec_witness :
    classifyFile "user.model.ts" = FType.model ∧
    classifyFile "db/migrations/001-init.js" = FType.migration ∧
    classifyFile "README.md" = FType.other :=
  ⟨(classifyFile_spec "user.model.ts").1 ⟨"user", Or.inl (by decide)⟩,
   (classifyFile_spec "db/migrations/001-init.js").2.1
     (by
       rintro ⟨s, h | h⟩
       · exact absurd ((endsWithStr_iff _ _).2 ⟨s, h⟩) (by decide)
       · exact absurd ((endsWithStr_iff _ _).2 ⟨s, h⟩) (by decide))
     ⟨"db", "001-init.js", by decide⟩
     ⟨"db/migrations/001-init", Or.inr (by decide)⟩,
   (classifyFile_spec "README.md").2.2
     (by
       rintro ⟨s, h | h⟩
       · exact absurd ((endsWithStr_iff _ _).2 ⟨s, h⟩) (by decide)
       · exact absurd ((endsWithStr_iff _ _).2 ⟨s, h⟩) (by decide))
     (by
       rintro ⟨⟨x, y, hxy⟩, _⟩
       exact absurd ((includesStr_iff _ _).2 ⟨x, y, hxy⟩) (by decide))⟩

/-- C3: for every verdict text returned by the provider, the result
handling of `main` finishes with exit code 0 exactly when the text
contains the substring `OK` (the `responseText.includes('OK')` test), and
with exit code 1 exactly when it does not; in particular the text `OK`
itself passes and a text with no occurrence of `OK` fails. -/
theorem verdict_pass_iff (providerName : String) (dd : DiffData)
    (postSuccessComments : Option String) (commentFetch : Except String Http)
    (t : String) :
    ((runMain providerName dd postSuccessComments commentFetch
        (Except.ok t)).exitCode = 0 ↔ ∃ x y : String, t = x ++ "OK" ++ y) ∧
    ((runMain providerName dd postSuccessComments commentFetch
        (Except.ok t)).exitCode = 1 ↔ ¬∃ x y : String, t = x ++ "OK" ++ y) := by
  rw [← includesStr_iff]
  by_cases hok : includesStr t "OK" = true
  · simp [runMain, handleResult, hok]
  · have hok2 : includesStr t "OK" = false := by
      cases h : includesStr t "OK"
      · rfl
      · exact absurd h hok
    simp [runMain, handleResult, hok2]

/-- C5: when the review endpoint answers with a non-success HTTP status,
`callGitHubModels` throws an error carrying the status code and response
body, and `main` catches it and exits with code 1 without attempting any
PR comment POST. -/
theorem review_http_error (response : Http) (content : Option String)
    (providerName : String) (dd : DiffData) (postSuccessComments : Option String)
    (commentFetch : Except String Http) (h : response.ok = false) :
    callGitHubModels response content =
      Except.error (ApiError.httpError response.status response.body) ∧
    runMain providerName dd postSuccessComments commentFetch
        (callGitHubModels response content) =
      { exitCode := 1, failCommentBody := none, failCommentLog := none,
        successPosted := false } := by
  have hc : callGitHubModels response content =
      Except.error (ApiError.httpError response.status response.body) := by
    simp [callGitHubModels, h]
  exact ⟨hc, by rw [hc]; rfl⟩

/-- C5 witness: the theorem applied to an HTTP 500 response. -/
theorem review_http_error_witness :
    (⟨false, 500, "Internal Server Error"⟩ : Http).ok = false ∧
    (callGitHubModels ⟨false, 500, "Internal Server Error"⟩ none =
        Except.error (ApiError.httpError 500 "Internal Server Error") ∧
      runMain "GitHub Models" emptyDiffData none (Except.ok ⟨true, 200, ""⟩)
          (callGitHubModels ⟨false, 500, "Internal Server Error"⟩ none) =
        { exitCode := 1, failCommentBody := none, failCommentLog := none,
          successPosted := false }) :=
  ⟨rfl, review_http_error ⟨false, 500, "Internal Server Error"⟩ none "GitHub Models"
      emptyDiffData none (Except.ok ⟨true, 200, ""⟩) rfl⟩

/-- C8: with verdict text exactly `OK` and `POST_SUCCESS_COMMENTS` unset,
the run finishes with exit code 0 and attempts no comment POST of either
kind, whatever a comment POST would have returned. -/
theorem ok_verdict_no_posts (providerName : String) (dd : DiffData)
    (commentFetch : Except String Http) :
    runMain providerName dd none commentFetch (Except.ok "OK") =
      { exitCode := 0, failCommentBody := none, failCommentLog := none,
        successPosted := false } := by
  have hok : includesStr "OK" "OK" = true := by decide
  simp [runMain, handleResult, hok, postSuccessEnabled]

theorem includes_append_left (x s pat : String) (h : includesStr s pat = true) :
    includesStr (x ++ s) pat = true := by
  obtain ⟨a, b, rfl⟩ := (includesStr_iff _ _).1 h
  exact (includesStr_iff _ _).2 ⟨x ++ a, b, by simp [String.append_assoc]⟩

theorem includes_append_right (s y pat : String) (h : includesStr s pat = true) :
    includesStr (s ++ y) pat = true := by
  obtain ⟨a, b, rfl⟩ := (includesStr_iff _ _).1 h
  exact (includesStr_iff _ _).2 ⟨a, b ++ y, by simp [String.append_assoc]⟩

theorem includes_refl (pat : String) : includesStr pat pat = true :=
  (includesStr_iff _ _).2 ⟨"", "", by
    simp [String.empty_append, String.append_empty]⟩

/-- C6: for every failing verdict (text without `OK`), the run POSTs a
Markdown comment whose body contains the provider name, the analyzed /
model / migration file counts, and the raw verdict text inside a code
block, and exits with code 1 regardless of the outcome of that comment
POST; the POST outcome is only logged (the source catches a thrown fetch
and logs a non-ok status) and never changes the exit code. -/
theorem fail_verdict_comment (providerName : String) (dd : DiffData)
    (postSuccessComments : Option String) (commentFetch : Except String Http)
    (t : String) (h : includesStr t "OK" = false) :
    (runMain providerName dd postSuccessComments commentFetch
        (Except.ok t)).exitCode = 1 ∧
    (runMain providerName dd postSuccessComments commentFetch
        (Except.ok t)).failCommentBody =
      some (buildFailComment providerName dd t) ∧
    (runMain providerName dd postSuccessComments commentFetch
        (Except.ok t)).failCommentLog = some (postCommentResult commentFetch) ∧
    includesStr (buildFailComment providerName dd t) providerName = true ∧
    includesStr (buildFailComment providerName dd t)
      (toString dd.diffs.length) = true ∧
    includesStr (buildFailComment providerName dd t)
      (toString dd.modelFiles.length) = true ∧
    includesStr (buildFailComment providerName dd t)
      (toString dd.migrationFiles.length) = true ∧
    includesStr (buildFailComment providerName dd t)
      ("```\n" ++ t ++ "\n```") = true := by
  refine ⟨by simp [runMain, handleResult, h], by simp [runMain, handleResult, h],
    by simp [runMain, handleResult, h], ?_, ?_, ?_, ?_, ?_⟩
  · exact
      includes_append_right _ _ _ (includes_append_right _ _ _
        (includes_append_right _ _ _ (includes_append_right _ _ _
          (includes_append_right _ _ _
            (includes_append_left "## 🚨 Convention Linter Analysis\n\n" _ _
              (includes_append "**AI Provider:** " providerName "\n"))))))
  · exact
      includes_append_right _ _ _ (includes_append_right _ _ _
        (includes_append_right _ _ _ (includes_append_right _ _ _
          (includes_append_left
            ("## 🚨 Convention Linter Analysis\n\n" ++
              ("**AI Provider:** " ++ providerName ++ "\n")) _ _
            (includes_append "**Files Analyzed:** " (toString dd.diffs.length) "\n")))))
  · exact
      includes_append_right _ _ _ (includes_append_right _ _ _
        (includes_append_right _ _ _
          (includes_append_left
            (("## 🚨 Convention Linter Analysis\n\n" ++
                ("**AI Provider:** " ++ providerName ++ "\n")) ++
              ("**Files Analyzed:** " ++ toString dd.diffs.length ++ "\n")) _ _
            (includes_append "- Model files: " (toString dd.modelFiles.length) "\n"))))
  · exact
      includes_append_right _ _ _ (includes_append_right _ _ _
        (includes_append_left
          ((("## 🚨 Convention Linter Analysis\n\n" ++
                ("**AI Provider:** " ++ providerName ++ "\n")) ++
              ("**Files Analyzed:** " ++ toString dd.diffs.length ++ "\n")) ++
            ("- Model files: " ++ toString dd.modelFiles.length ++ "\n")) _ _
          (includes_append "- Migration files: "
            (toString dd.migrationFiles.length) "\n\n")))
  · have hsplit : ("\n```\n\n" : String) = "\n```" ++ "\n\n" := by decide
    have hG : ("```\n" ++ t ++ "\n```\n\n" : String) =
        ("```\n" ++ t ++ "\n```") ++ "\n\n" := by
      rw [hsplit, ← String.append_assoc]
    have hbase : includesStr ("```\n" ++ t ++ "\n```\n\n")
        ("```\n" ++ t ++ "\n```") = true := by
      rw [hG]
      exact includes_append_right _ _ _ (includes_refl _)
    exact
      includes_append_left
        (((("## 🚨 Convention Linter Analysis\n\n" ++
              ("**AI Provider:** " ++ providerName ++ "\n")) ++
            ("**Files Analyzed:** " ++ toString dd.diffs.length ++ "\n")) ++
          ("- Model files: " ++ toString dd.modelFiles.length ++ "\n")) ++
            ("- Migration files: " ++ toString dd.migrationFiles.length ++ "\n\n") ++
          "### ❌ Issues Found\n\n") _ _ hbase

/-- C6 witness: the theorem applied to a failing verdict with a comment
POST that itself fails (a thrown fetch), still exiting with code 1. -/
theorem fail_verdict_comment_witness :
    includesStr "Violations found" "OK" = false ∧
    ((runMain "GitHub Models" emptyDiffData none (Except.error "network down")
        (Except.ok "Violations found")).exitCode = 1 ∧
     (runMain "GitHub Models" emptyDiffData none (Except.error "network down")
        (Except.ok "Violations found")).failCommentBody =
       some (buildFailComment "GitHub Models" emptyDiffData "Violations found") ∧
     (runMain "GitHub Models" emptyDiffData none (Except.error "network down")
        (Except.ok "Violations found")).failCommentLog =
       some (postCommentResult (Except.error "network down")) ∧
     includesStr (buildFailComment "GitHub Models" emptyDiffData "Violations found")
       "GitHub Models" = true ∧
     includesStr (buildFailComment "GitHub Models" emptyDiffData "Violations found")
       (toString emptyDiffData.diffs.length) = true ∧
     includesStr (buildFailComment "GitHub Models" emptyDiffData "Violations found")
       (toString emptyDiffData.modelFiles.length) = true ∧
     includesStr (buildFailComment "GitHub Models" emptyDiffData "Violations found")
       (toString emptyDiffData.migrationFiles.length) = true ∧
     includesStr (buildFailComment "GitHub Models" emptyDiffData "Violations found")
       ("```\n" ++ "Violations found" ++ "\n```") = true) :=
  ⟨by decide,
   fail_verdict_comment "GitHub Models" emptyDiffData none (Except.error "network down")
     "Violations found" (by decide)⟩

/-- C7: prompt assembly falls back to the legacy combined template when
the modern system/user pair is absent: the produced system prompt is the
part of the legacy template before the `__DIFFS_PLACEHOLDER__` marker
(the whole template when the marker is absent) and the user prompt is the
fixed preamble plus the formatted diff data; when no template exists at
all, assembly fails with the configuration error. -/
theorem preparePrompts_fallback (fsx : PromptFS)
    (h : fsx.systemTpl = none ∨ fsx.userTpl = none) :
    (∀ tpl dd, fsx.legacyTpl = some tpl →
      ∃ sys : String,
        preparePrompts fsx dd =
          Except.ok (sys,
            "Please analyze the following code changes:\n\n" ++
              formatDiffDataForAI dd) ∧
        (includesStr tpl "__DIFFS_PLACEHOLDER__" = true →
          ∃ rest : String, tpl = sys ++ "__DIFFS_PLACEHOLDER__" ++ rest) ∧
        (includesStr tpl "__DIFFS_PLACEHOLDER__" = false → sys = tpl)) ∧
    (∀ dd, fsx.legacyTpl = none →
      preparePrompts fsx dd = Except.error PromptError.noTemplates) := by
  obtain ⟨st, ut, lt⟩ := fsx
  constructor
  · intro tpl dd hleg
    simp only at hleg
    subst hleg
    have hmain : preparePrompts ⟨st, ut, some tpl⟩ dd =
        Except.ok (takeUntilStr tpl "__DIFFS_PLACEHOLDER__",
          "Please analyze the following code changes:\n\n" ++
            formatDiffDataForAI dd) := by
      rcases h with h | h
      · simp only at h
        subst h
        cases ut <;> rfl
      · simp only at h
        subst h
        cases st <;> rfl
    refine ⟨takeUntilStr tpl "__DIFFS_PLACEHOLDER__", hmain, ?_, ?_⟩
    · intro hc
      obtain ⟨y, hy⟩ :=
        takeUntilSub_spec ("__DIFFS_PLACEHOLDER__" : String).data tpl.data hc
      refine ⟨⟨y⟩, String.ext ?_⟩
      simpa [String.data_append, takeUntilStr] using hy
    · intro hc
      exact String.ext (takeUntilSub_not_contains _ _ hc)
  · intro dd hleg
    simp only at hleg
    subst hleg
    rcases h with h | h
    · simp only at h
      subst h
      cases ut <;> rfl
    · simp only at h
      subst h
      cases st <;> rfl

/-- A prompt filesystem with only the legacy combined template. -/
def promptFsLegacy : PromptFS :=
  { systemTpl := none, userTpl := none,
    legacyTpl := some "SYS.__DIFFS_PLACEHOLDER__.REST" }

/-- A prompt filesystem with no template file at all. -/
def promptFsNone : PromptFS :=
  { systemTpl := none, userTpl := none, legacyTpl := none }

/-- C7 witness: the theorem applied to a legacy-only template filesystem
and to an empty one. -/
theorem preparePrompts_fallback_witness :
    (promptFsLegacy.systemTpl = none ∨ promptFsLegacy.userTpl = none) ∧
    (∃ sys : String,
      preparePrompts promptFsLegacy emptyDiffData =
        Except.ok (sys,
          "Please analyze the following code changes:\n\n" ++
            formatDiffDataForAI emptyDiffData) ∧
      (includesStr "SYS.__DIFFS_PLACEHOLDER__.REST" "__DIFFS_PLACEHOLDER__" = true →
        ∃ rest : String,
          "SYS.__DIFFS_PLACEHOLDER__.REST" = sys ++ "__DIFFS_PLACEHOLDER__" ++ rest) ∧
      (includesStr "SYS.__DIFFS_PLACEHOLDER__.REST" "__DIFFS_PLACEHOLDER__" = false →
        sys = "SYS.__DIFFS_PLACEHOLDER__.REST")) ∧
    preparePrompts promptFsNone emptyDiffData = Except.error PromptError.noTemplates :=
  ⟨Or.inl rfl,
   (preparePrompts_fallback promptFsLegacy (Or.inl rfl)).1
     "SYS.__DIFFS_PLACEHOLDER__.REST" emptyDiffData rfl,
   (preparePrompts_fallback promptFsNone (Or.inl rfl)).2 emptyDiffData rfl⟩
